import Mathlib

/-!
Verification of the referee-finder ranking pipeline.

This file gives a shallow embedding of the Python sources
(`src/utils.py`, `src/models.py`, `src/arxiv_client.py`,
`src/inspire_client.py`, `src/referee_finder.py`) and proves or refutes
the specification claims about them.

Modelling conventions:
* Python floats are modelled as `ℚ` (the pipeline only adds, multiplies
  and divides decimal constants); `math.log10` is kept abstract as a
  function parameter in the executable pipeline and is modelled by
  `Real.logb 10` in the analytic statements about the mainstream index.
* `datetime` values are modelled as `Int` (a time-stamp scale; only
  comparisons and fixed offsets are used).
* Python code that can raise (`parts[-1]` on an empty list) is modelled
  with `Option`.
* HTTP responses of the two API adapters are an explicit environment
  (`Env`); the unseeded `random.sample` calls are an explicit argument
  (`Rand`), so one invocation of the pipeline is a pure function of the
  environment, the parameters and the random draws.
-/

namespace RefereeFinder

/-! ## Generic character/list helpers (Python string primitives)

All string manipulation is done on `List Char` with structural
recursion, so every definition evaluates by kernel reduction. -/

/-- Python `needle in haystack` (substring test). -/
def containsSub (needle : List Char) : List Char → Bool
  | [] => needle.isEmpty
  | c :: t => if needle.isPrefixOf (c :: t) then true else containsSub needle t

/-- Python `str.strip()` on a character list (ASCII whitespace). -/
def trimChars (l : List Char) : List Char :=
  ((l.dropWhile Char.isWhitespace).reverse.dropWhile Char.isWhitespace).reverse

/-- Split at every character satisfying `p` (Python `str.split(sep)`
semantics: empty pieces are kept). -/
def splitOnP (p : Char → Bool) : List Char → List (List Char)
  | [] => [[]]
  | c :: rest =>
    if p c then [] :: splitOnP p rest
    else
      match splitOnP p rest with
      | [] => [[c]]
      | g :: gs => (c :: g) :: gs

/-- Python `str.split()` (split on whitespace runs, dropping empties). -/
def splitWsList (l : List Char) : List (List Char) :=
  (splitOnP Char.isWhitespace l).filter (fun g => !g.isEmpty)

/-- Python `" ".join(...)`. -/
def joinSpace : List (List Char) → List Char
  | [] => []
  | [w] => w
  | w :: ws => w ++ ' ' :: joinSpace ws

/-- Python `str.lower()` (ASCII). -/
def toLowerList (l : List Char) : List Char := l.map Char.toLower

/-! ## `src/utils.py` -/

/-- `utils.normalize_author_name` on the character list: convert
"Last, First" to "First Last", lowercase, collapse whitespace, and keep
only the first and last token when more than two tokens remain. -/
def normalize_author_name_list (l : List Char) : List Char :=
  let l1 :=
    if l.contains ',' then
      joinSpace (((splitOnP (· = ',') l).map trimChars).reverse)
    else l
  let words := splitWsList (toLowerList l1)
  if words.length > 2 then words.headD [] ++ ' ' :: words.getLastD []
  else joinSpace words

/-- `utils.normalize_author_name`. -/
def normalize_author_name (name : String) : String :=
  String.mk (normalize_author_name_list name.data)

/-- `utils.names_match`: two names match when the normalized forms are
equal, or the last tokens are equal and the first initials agree.
`none` models the `IndexError` Python raises when a normalized name has
no tokens (`parts[-1]` on an empty list). -/
def names_match (name1 name2 : String) : Option Bool :=
  let n1 := normalize_author_name_list name1.data
  let n2 := normalize_author_name_list name2.data
  if n1 = n2 then some true
  else
    let parts1 := splitWsList n1
    let parts2 := splitWsList n2
    match parts1.getLast?, parts2.getLast? with
    | some t1, some t2 =>
      if t1 ≠ t2 then some false
      else
        match (parts1.headD []).head?, (parts2.headD []).head? with
        | some c1, some c2 => some (decide (c1 = c2))
        | _, _ => none
    | _, _ => none

/-! ## `src/models.py` -/

/-- `models.Paper` (`published` is the parsed `datetime`, as a time
stamp). -/
structure Paper where
  arxiv_id : String
  title : String
  abstract : String
  authors : List String
  categories : List String
  published : Int
  num_authors : Nat
deriving DecidableEq, Inhabited

/-- `models.Author.career_years`: `datetime.now().year - first_paper_year`
when `first_paper_year` is truthy (a year of `0` is falsy in Python). -/
def career_years (first_paper_year : Option Int) (current_year : Int) : Option Int :=
  match first_paper_year with
  | some y => if y = 0 then none else some (current_year - y)
  | none => none

/-- The computed branch of `models.Author.career_stage` (the `if`/`elif`
chain over `career_years`). -/
def career_stage_from_years (first_paper_year : Option Int) (current_year : Int) :
    Option String :=
  match career_years first_paper_year current_year with
  | none => none
  | some years =>
    if 2 ≤ years ∧ years ≤ 5 then some "Postdoc"
    else if 5 < years ∧ years ≤ 10 then some "Junior Faculty"
    else if 10 < years ∧ years ≤ 20 then some "Mid-Career"
    else if years < 2 then some "Graduate Student"
    else some "Senior"

/-- `models.Author.career_stage`: a truthy `_rank_stage` override takes
precedence (an empty-string override is falsy in Python and falls
through to the computed stage). -/
def career_stage (rank_stage : Option String) (first_paper_year : Option Int)
    (current_year : Int) : Option String :=
  match rank_stage with
  | some s => if s ≠ "" then some s else career_stage_from_years first_paper_year current_year
  | none => career_stage_from_years first_paper_year current_year

/-- The career-stage derivation rule exactly as the specification words
it, for comparison with `career_stage` (refinement check for claim C4):
years < 2 Graduate Student; 2-5 Postdoc; 5(excl)-10 Junior Faculty;
10(excl)-20 Mid-Career; over 20 Senior. -/
def stage_of_years (years : Int) : String :=
  if years < 2 then "Graduate Student"
  else if years ≤ 5 then "Postdoc"
  else if years ≤ 10 then "Junior Faculty"
  else if years ≤ 20 then "Mid-Career"
  else "Senior"

/-! ## `src/utils.py`: `calculate_relevance_score` -/

/-- The per-paper score inside `utils.calculate_relevance_score`:
`0.7 * kw_score + 0.3 * cat_score`. -/
def paper_score (target_kw_set target_cat_set : List String) (paper : Paper) : ℚ :=
  let paper_text := toLowerList (paper.title.data ++ ' ' :: paper.abstract.data)
  let kw_matches : ℕ := target_kw_set.countP (fun kw => containsSub kw.data paper_text)
  let kw_score : ℚ := (kw_matches : ℚ) / ((max target_kw_set.length 1 : ℕ) : ℚ)
  let cat_overlap : ℕ := (target_cat_set.filter (fun c => c ∈ paper.categories)).length
  let cat_score : ℚ := (cat_overlap : ℚ) / ((max target_cat_set.length 1 : ℕ) : ℚ)
  (7/10) * kw_score + (3/10) * cat_score

/-- `utils.calculate_relevance_score`: mean of the top-3 per-paper
scores plus a quantity bonus `min(paper_count * 0.05, 0.2)`, clamped
to 1.0; `0.0` for an empty paper list. -/
def calculate_relevance_score (candidate_papers : List Paper)
    (target_keywords : List String) (target_categories : List String) : ℚ :=
  if candidate_papers = [] then 0
  else
    let target_kw_set := (target_keywords.map (fun s => String.mk (toLowerList s.data))).dedup
    let target_cat_set := target_categories.dedup
    let scores := candidate_papers.map (paper_score target_kw_set target_cat_set)
    if scores = [] then 0
    else
      let top_scores := (scores.insertionSort (fun a b => b ≤ a)).take 3
      let avg_score := top_scores.sum / (top_scores.length : ℚ)
      let quantity_bonus := min ((candidate_papers.length : ℚ) * (1/20)) (1/5)
      min (avg_score + quantity_bonus) 1

/-! ## `src/arxiv_client.py`: identifier normalization -/

/-- Drop a literal prefix from a character list, when present. -/
def tryDropStr (p : String) (l : List Char) : Option (List Char) :=
  if p.data.isPrefixOf l then some (l.drop p.data.length) else none

/-- Match the anchored pattern `(https?://)?(www\.)?arxiv\.org/(abs|pdf)/`
at the head of the list, returning the remainder on success.  The
optional groups need no backtracking: `http(s)://` and `www.` can never
themselves start `arxiv.org/`. -/
def matchUrlHead (l : List Char) : Option (List Char) :=
  let l1 := ((tryDropStr "https://" l).orElse fun _ => tryDropStr "http://" l).getD l
  let l2 := (tryDropStr "www." l1).getD l1
  match tryDropStr "arxiv.org/" l2 with
  | none => none
  | some l3 =>
    match tryDropStr "abs/" l3 with
    | some l4 => some l4
    | none => tryDropStr "pdf/" l3

/-- `re.sub(r'^(https?://)?(www\.)?arxiv\.org/(abs|pdf)/', '', ...)`. -/
def stripUrl (l : List Char) : List Char := (matchUrlHead l).getD l

/-- Python `s.replace('.pdf', '')`: remove every occurrence of `.pdf`,
scanning left to right without rescanning replaced text. -/
def removePdf : List Char → List Char
  | '.' :: 'p' :: 'd' :: 'f' :: rest => removePdf rest
  | c :: rest => c :: removePdf rest
  | [] => []

/-- `re.sub(r'^arXiv:', '', ..., flags=re.IGNORECASE)`. -/
def dropArxivTag (l : List Char) : List Char :=
  if (l.take 6).map Char.toLower = "arxiv:".data then l.drop 6 else l

/-- `arxiv_client.ArxivClient.normalize_arxiv_id`: strip whitespace, a
URL prefix, every `.pdf` occurrence and a case-insensitive `arXiv:`
prefix.  (It does not touch trailing version suffixes.) -/
def normalize_arxiv_id (s : String) : String :=
  String.mk (dropArxivTag (removePdf (stripUrl (trimChars s.data))))

/-! ## `src/inspire_client.py` -/

/-- One INSPIRE literature hit, reduced to the metadata fields the
pipeline reads. `arxivId` is `none` when the hit has no usable arXiv
eprint; `earliestDate` is the parsed `earliest_date` (`none` when
neither `%Y-%m-%d` nor `%Y-%m` parses); `refIds` are the hit's linked
reference record ids. -/
structure Hit where
  arxivId : Option String
  title : String
  authorsFull : List String
  earliestDate : Option Int
  refIds : List String
  abstract : String
  categories : List String
deriving DecidableEq, Inhabited

/-- The candidate-paper dict built by `get_papers_citing_refs` /
`search_papers_by_topic`. -/
structure PaperRec where
  arxiv_id : String
  title : String
  authors : List String
  num_authors : Nat
  shared_refs : Nat
  topic_match : Bool
  earliest_date : Option Int
  abstracts : String
  categories : List String
deriving DecidableEq, Inhabited

/-- Record built by `get_papers_citing_refs` for one hit: authors
truncated to the first 10, `num_authors` the full count, `shared_refs`
the number of distinct given reference ids the hit cites
(`len(set(ref_ids) & paper_ref_ids)`). -/
def mkCitingRec (ref_ids : List String) (h : Hit) (aid : String) : PaperRec :=
  { arxiv_id := aid
    title := h.title
    authors := h.authorsFull.take 10
    num_authors := h.authorsFull.length
    shared_refs := (ref_ids.dedup.filter (· ∈ h.refIds)).length
    topic_match := false
    earliest_date := h.earliestDate
    abstracts := h.abstract
    categories := h.categories }

/-- The reference-id sampling in `get_papers_citing_refs` when more than
5 ids are given: `list(set(fixed ++ random.sample(...)))[:8]` followed by
`sorted`.  The fixed indices, the random extras and the unspecified set
iteration order are folded into the draw `r`; the model keeps the
deterministic envelope (valid, deduplicated, at most 8, sorted). -/
def sampleIdxs (n : Nat) (r : List Nat) : List Nat :=
  ((r.dedup.filter (· < n)).take 8).insertionSort (· ≤ ·)

/-- `inspire_client.InspireClient.get_papers_citing_refs`.
`citing_hits` is the (mocked) INSPIRE response as a function of the
sampled reference-id list; `max_results` only sets the requested page
size, so it lives in the response. -/
def get_papers_citing_refs (citing_hits : List String → List Hit) (now : Int)
    (ref_ids : List String) (r : List Nat) (months_start months_end : Nat) :
    List PaperRec :=
  if ref_ids.isEmpty then []
  else
    let sample_refs :=
      if ref_ids.length ≤ 5 then ref_ids
      else (sampleIdxs ref_ids.length r).filterMap (fun i => ref_ids[i]?)
    let date_start := now - (months_end : Int) * 30
    let date_end := now - (months_start : Int) * 30
    (citing_hits sample_refs).filterMap (fun h =>
      match h.earliestDate with
      | none => none
      | some d =>
        if date_start ≤ d ∧ d ≤ date_end then
          match h.arxivId with
          | none => none
          | some aid => some (mkCitingRec ref_ids h aid)
        else none)

/-- Record built by `search_papers_by_topic` for one hit: `shared_refs`
0, `topic_match` true, authors truncated to the first 10. -/
def mkTopicRec (h : Hit) (aid : String) : PaperRec :=
  { arxiv_id := aid
    title := h.title
    authors := h.authorsFull.take 10
    num_authors := h.authorsFull.length
    shared_refs := 0
    topic_match := true
    earliest_date := h.earliestDate
    abstracts := h.abstract
    categories := h.categories }

/-- The hit-processing loop of `search_papers_by_topic`: skip hits
without an arXiv id, deduplicate on the id (`seen_arxiv`), and keep
hits whose parsed date falls in the window. -/
def topicSearchGo (date_start date_end : Int) :
    List Hit → List String → List PaperRec
  | [], _ => []
  | h :: rest, seen =>
    match h.arxivId with
    | none => topicSearchGo date_start date_end rest seen
    | some aid =>
      if aid ∈ seen then topicSearchGo date_start date_end rest seen
      else
        match h.earliestDate with
        | none => topicSearchGo date_start date_end rest seen
        | some d =>
          if date_start ≤ d ∧ d ≤ date_end then
            mkTopicRec h aid :: topicSearchGo date_start date_end rest (aid :: seen)
          else topicSearchGo date_start date_end rest seen

/-- `inspire_client.InspireClient.search_papers_by_topic`.  `topic_hits`
is the concatenated (mocked) response stream of the per-keyword title
queries; the result is capped at `max_results`. -/
def search_papers_by_topic (topic_hits : List Hit) (now : Int)
    (months_start months_end : Nat) (max_results : Nat) : List PaperRec :=
  let date_start := now - (months_end : Int) * 30
  let date_end := now - (months_start : Int) * 30
  (topicSearchGo date_start date_end topic_hits []).take max_results

/-! ### Mainstream-index estimator (`calculate_mainstream_index`) -/

/-- Python `round(x, 2)` (modelled as round-half-up; Python rounds half
to even, which differs only on exact `.005` ties, never reached in the
statements below). -/
def round2 (x : ℚ) : ℚ := (round (100 * x) : ℤ) / 100

/-- Average citation count of the sampled references
(`sum(citation_counts) / len(citation_counts)`). -/
def avg_citations (citation_counts : List Nat) : ℚ :=
  (citation_counts.sum : ℚ) / (citation_counts.length : ℚ)

/-- `citation_score = min(log10(avg+1)/3, 1.0) if avg_citations > 0 else 0.1`,
with `log10` abstract so the pipeline stays executable. -/
def citation_score_with (log10 : ℚ → ℚ) (avg : ℚ) : ℚ :=
  if 0 < avg then min (log10 (avg + 1) / 3) 1 else 1/10

/-- `ref_count_score = min(len(references) / 100, 0.9)`. -/
def ref_count_score (num_references : Nat) : ℚ :=
  min ((num_references : ℚ) / 100) (9/10)

/-- `inspire_client.InspireClient.calculate_mainstream_index`:
`references` is the target's reference list (`none` when the INSPIRE
lookup fails; each entry carries its linked record id or `none`),
`ref_citations` the per-reference citation-count lookup (`none` when the
fetch fails), and `sample` the index draw of `random.sample(ref_ids,
min(10, len(ref_ids)))`.  Every early-exit path returns 0.5. -/
def calculate_mainstream_index (log10 : ℚ → ℚ)
    (references : Option (List (Option String)))
    (ref_citations : String → Option Nat)
    (sample : List Nat) : ℚ :=
  match references with
  | none => 1/2
  | some refs =>
    if refs.isEmpty then 1/2
    else
      let ref_ids := refs.filterMap id
      if ref_ids.isEmpty then 1/2
      else
        let sample_refs := sample.filterMap (fun i => ref_ids[i]?)
        let citation_counts := sample_refs.filterMap ref_citations
        if citation_counts.isEmpty then 1/2
        else
          round2 ((7/10) * citation_score_with log10 (avg_citations citation_counts)
            + (3/10) * ref_count_score refs.length)

/-- The real-valued citation score with the genuine `math.log10`,
for the analytic claims about the estimator. -/
noncomputable def citation_score (avg : ℚ) : ℝ :=
  if 0 < avg then min (Real.logb 10 ((avg : ℝ) + 1) / 3) 1 else 1/10

/-- Real-valued `round(x, 2)`. -/
noncomputable def round2R (x : ℝ) : ℝ := (round (100 * x) : ℤ) / 100

/-- The real-valued combined mainstream index computed from the sampled
citation counts and the total reference count. -/
noncomputable def mainstream_index (citation_counts : List Nat)
    (num_references : Nat) : ℝ :=
  round2R ((7/10) * citation_score (avg_citations citation_counts)
    + (3/10) * (ref_count_score num_references : ℝ))

/-! ## `src/referee_finder.py` -/

/-- Career-relevant fields of the `Author` built by
`InspireClient.get_author_info` (`_rank_stage` already mapped through
`RANK_MAP`). -/
structure AuthorInfo where
  name : String
  rank_stage : Option String
  first_paper_year : Option Int
deriving DecidableEq, Inhabited

/-- The per-author accumulator of `find_referees` step 4
(`author_data` defaultdict entry). -/
structure AuthorData where
  papers : List Paper
  shared_refs_total : Nat
  max_shared_refs : Nat
  topic_match_count : Nat
deriving DecidableEq, Inhabited

def defaultAuthorData : AuthorData := ⟨[], 0, 0, 0⟩

/-- `models.RefereeCandidate` as returned by `find_referees`, together
with the fields `find_referees` sets on the wrapped author
(`small_collab_papers_by_year`, `recent_papers`, and the
`mainstream_index` display attribute, set to the target's value). -/
structure RefereeCandidate where
  author : AuthorInfo
  small_collab_papers_by_year : List (Int × Nat)
  recent_papers : List Paper
  author_mainstream_index : ℚ
  relevant_papers : List Paper
  relevance_score : ℚ
deriving DecidableEq, Inhabited

/-- Insertion-ordered model of the `author_data` dict. -/
abbrev AuthorMap := List (String × AuthorData)

/-- The `Paper` object built for a candidate record in step 4
(`rel_paper`); an unparsable date falls back to `datetime.now()`. -/
def paper_of_rec (now : Int) (r : PaperRec) : Paper :=
  { arxiv_id := r.arxiv_id
    title := r.title
    abstract := r.abstracts
    authors := r.authors
    categories := r.categories
    published := r.earliest_date.getD now
    num_authors := r.num_authors }

/-- The accumulator update for one (author, record) pair in step 4. -/
def accum_step (r : PaperRec) (rel : Paper) (d : AuthorData) : AuthorData :=
  { papers := d.papers ++ [rel]
    shared_refs_total := d.shared_refs_total + r.shared_refs
    max_shared_refs := max d.max_shared_refs r.shared_refs
    topic_match_count := d.topic_match_count + (if r.topic_match then 1 else 0) }

/-- Apply `accum_step` to `name`'s entry of the insertion-ordered map,
appending a fresh default entry when absent (defaultdict semantics). -/
def bumpAuthor (name : String) (r : PaperRec) (rel : Paper) : AuthorMap → AuthorMap
  | [] => [(name, accum_step r rel defaultAuthorData)]
  | (n, d) :: rest =>
    if n = name then (n, accum_step r rel d) :: rest
    else (n, d) :: bumpAuthor name r rel rest

/-- `RefereeFinder._is_paper_author`: first-match loop over the target
authors; `none` propagates a `names_match` crash. -/
def is_paper_author (candidate : String) : List String → Option Bool
  | [] => some false
  | a :: rest =>
    match names_match candidate a with
    | none => none
    | some true => some true
    | some false => is_paper_author candidate rest

/-- The inner author loop of step 4 for one admitted record. -/
def accumAuthors (now : Int) (targets : List String) (r : PaperRec) :
    List String → AuthorMap → Option AuthorMap
  | [], m => some m
  | name :: rest, m =>
    match is_paper_author name targets with
    | none => none
    | some true => accumAuthors now targets r rest m
    | some false =>
      accumAuthors now targets r rest (bumpAuthor name r (paper_of_rec now r) m)

/-- The record loop of step 4: skip records with more than 15 authors,
deduplicate on `arxiv_id` (`seen_papers`), accumulate the rest. -/
def collectAuthors (now : Int) (targets : List String) :
    List PaperRec → List String → AuthorMap → Option AuthorMap
  | [], _, m => some m
  | r :: rest, seen, m =>
    if 15 < r.num_authors then collectAuthors now targets rest seen m
    else if r.arxiv_id ∈ seen then collectAuthors now targets rest seen m
    else
      match accumAuthors now targets r r.authors m with
      | none => none
      | some m2 => collectAuthors now targets rest (r.arxiv_id :: seen) m2

/-- The subsequence of candidate records that step 4 actually
accumulates: the admission skeleton of `collectAuthors` (author-count
filter plus `seen_papers` deduplication). -/
def admittedRecs : List PaperRec → List String → List PaperRec
  | [], _ => []
  | r :: rest, seen =>
    if 15 < r.num_authors then admittedRecs rest seen
    else if r.arxiv_id ∈ seen then admittedRecs rest seen
    else r :: admittedRecs rest (r.arxiv_id :: seen)

/-- The ranking key of step 5:
`topic_match_count*etw + shared_refs_total*ecw*0.5 + paper_count*0.1`. -/
def ranking_key (etw ecw : ℚ) (d : AuthorData) : ℚ :=
  (d.topic_match_count : ℚ) * etw + (d.shared_refs_total : ℚ) * ecw * (1/2)
    + (d.papers.length : ℚ) * (1/10)

/-- `sorted(author_data.items(), key=..., reverse=True)` (stable,
descending by ranking key; `insertionSort` is stable, like Python's
sort). -/
def sort_authors (etw ecw : ℚ) (m : AuthorMap) : AuthorMap :=
  m.insertionSort (fun a b => ranking_key etw ecw b.2 ≤ ranking_key etw ecw a.2)

def eligible_stages : List String := ["Postdoc", "Junior Faculty", "Mid-Career"]

/-- Upstream API responses for one invocation (the mocked adapters):
`fetch_paper` the arXiv target lookup; `topic_keywords` the result of
`_extract_topic_keywords` on the target's title/abstract;
`target_references` and `ref_citations` the INSPIRE data behind
`calculate_mainstream_index`; `topic_refs`/`method_refs` the
classification returned by `get_paper_references_by_topic`;
`citing_hits`/`topic_hits` the literature-search responses;
`author_info`, `has_conflict` (`check_collaboration` against the target
authors), and `small_collab_counts`
(`get_author_papers_with_counts`) the per-candidate lookups. -/
structure Env where
  fetch_paper : Option Paper
  topic_keywords : List String
  target_references : Option (List (Option String))
  ref_citations : String → Option Nat
  topic_refs : List String
  method_refs : List String
  citing_hits : List String → List Hit
  topic_hits : List Hit
  author_info : String → Option AuthorInfo
  has_conflict : String → Bool
  small_collab_counts : String → List (Int × Nat)
  now : Int
  current_year : Int

/-- The keyword arguments of `find_referees`. -/
structure Params where
  num_candidates : Nat
  months_start : Nat
  months_end : Nat
  topic_weight : ℚ
  citation_weight : ℚ
  niche_only : Bool

/-- The draws of the three unseeded `random.sample` calls reachable in
one invocation (mainstream-index sampling, and the reference sampling
of the two `get_papers_citing_refs` calls). -/
structure Rand where
  mainstream_sample : List Nat
  citing_sample_topic : List Nat
  citing_sample_method : List Nat

inductive FindError where
  /-- `ValueError("Could not fetch paper ...")`. -/
  | paperNotFound
  /-- `IndexError` escaping from `names_match` on an empty normalized
  name. -/
  | nameIndexError
deriving DecidableEq

/-- Steps 3a/3b of `find_referees`: the merged candidate-record pool
(`co_citing_papers + topic_papers`), with the 2x `shared_refs`
multiplier on the topic-reference co-citations. -/
def pipeline_records (env : Env) (p : Params) (r : Rand) : List PaperRec :=
  let topic_citing :=
    if env.topic_refs.isEmpty then []
    else
      (get_papers_citing_refs env.citing_hits env.now env.topic_refs
        r.citing_sample_topic p.months_start p.months_end).map
        (fun pr => { pr with shared_refs := pr.shared_refs * 2 })
  let co_citing := topic_citing ++
    (if ¬ env.method_refs.isEmpty ∧ topic_citing.length < 100 then
      get_papers_citing_refs env.citing_hits env.now env.method_refs
        r.citing_sample_method p.months_start p.months_end
    else [])
  let topic_papers :=
    if env.topic_keywords.isEmpty then []
    else search_papers_by_topic env.topic_hits env.now p.months_start p.months_end 100
  co_citing ++ topic_papers

/-- Step 6 of `find_referees`: evaluate authors in ranking order until
`num_candidates * 3` eligible candidates are found, skipping authors
that are unresolvable, of unknown or ineligible career stage, or with a
recent collaboration conflict. -/
def evaluate_candidates (env : Env) (all_refs_len : Nat) (target_mainstream : ℚ)
    (cap : Nat) : AuthorMap → Nat → List RefereeCandidate
  | [], _ => []
  | (name, data) :: rest, cnt =>
    if cap ≤ cnt then []
    else
      match env.author_info name with
      | none => evaluate_candidates env all_refs_len target_mainstream cap rest cnt
      | some a =>
        match career_stage a.rank_stage a.first_paper_year env.current_year with
        | none => evaluate_candidates env all_refs_len target_mainstream cap rest cnt
        | some stage =>
          if stage ∉ eligible_stages then
            evaluate_candidates env all_refs_len target_mainstream cap rest cnt
          else if env.has_conflict name then
            evaluate_candidates env all_refs_len target_mainstream cap rest cnt
          else
            let max_possible_refs := min all_refs_len 10
            let ref_score := (data.shared_refs_total : ℚ)
              / ((max (max_possible_refs * data.papers.length) 1 : ℕ) : ℚ)
            let topic_bonus := min ((data.topic_match_count : ℚ) * (1/5)) (2/5)
            let paper_count_bonus := min ((data.papers.length : ℚ) * (1/10)) (1/5)
            let relevance := min (ref_score + topic_bonus + paper_count_bonus) 1
            { author := a
              small_collab_papers_by_year := env.small_collab_counts name
              recent_papers := data.papers
              author_mainstream_index := target_mainstream
              relevant_papers := data.papers
              relevance_score := relevance }
              :: evaluate_candidates env all_refs_len target_mainstream cap rest (cnt + 1)

/-- Steps 1-7 of `find_referees`: everything before the final sort.
`none` when the target cannot be fetched or a `names_match` crash
escapes. -/
def survivors (log10 : ℚ → ℚ) (env : Env) (p : Params) (r : Rand) :
    Option (List RefereeCandidate) :=
  match env.fetch_paper with
  | none => none
  | some paper =>
    let target_mainstream := calculate_mainstream_index log10 env.target_references
      env.ref_citations r.mainstream_sample
    let all_refs := env.topic_refs ++ env.method_refs
    match collectAuthors env.now paper.authors (pipeline_records env p r) [] [] with
    | none => none
    | some author_data =>
      let ew := if p.niche_only then (p.topic_weight * 3, p.citation_weight * (1/5))
        else (p.topic_weight * (1 + (1 - target_mainstream)), p.citation_weight)
      some (evaluate_candidates env all_refs.length target_mainstream
        (p.num_candidates * 3) (sort_authors ew.1 ew.2 author_data) 0)

/-- Step 8: `candidates.sort(key=..., reverse=True)` (stable, descending
by relevance score). -/
def sort_candidates (cands : List RefereeCandidate) : List RefereeCandidate :=
  cands.insertionSort (fun a b => b.relevance_score ≤ a.relevance_score)

/-- `RefereeFinder.find_referees`: the full public operation as a pure
function of the upstream responses, the parameters and the random
draws. -/
def find_referees (log10 : ℚ → ℚ) (env : Env) (p : Params) (r : Rand) :
    Except FindError (List RefereeCandidate) :=
  match env.fetch_paper with
  | none => .error .paperNotFound
  | some _ =>
    match survivors log10 env p r with
    | none => .error .nameIndexError
    | some cands => .ok ((sort_candidates cands).take p.num_candidates)

/-- Reference accumulation of step 4 over an already-admitted record
list (no author-count filter, no deduplication); `collectAuthors` is
proved equal to this composed with `admittedRecs`. -/
def accumRecords (now : Int) (targets : List String) :
    List PaperRec → AuthorMap → Option AuthorMap
  | [], m => some m
  | r :: rest, m =>
    match accumAuthors now targets r r.authors m with
    | none => none
    | some m2 => accumRecords now targets rest m2

/-- First-match lookup in the insertion-ordered author map (Python dict
access). -/
def lookupName (n : String) : AuthorMap → Option AuthorData
  | [] => none
  | (k, d) :: rest => if k = n then some d else lookupName n rest

/-- The mainstream index displayed on the first returned candidate
(0 when the result is empty or an error); used to observe the output. -/
def resultMainstream : Except FindError (List RefereeCandidate) → ℚ
  | .ok (c :: _) => c.author_mainstream_index
  | _ => 0

/-! ## Concrete fixtures (mocked upstream data used by the closed
instances below) -/

/-- A placeholder for `math.log10` on paths that never evaluate it. -/
def log10zero : ℚ → ℚ := fun _ => 0

/-- A target paper with a single author. -/
def witnessTarget : Paper :=
  { arxiv_id := "2401.00001", title := "T", abstract := "A",
    authors := ["Tar Get"], categories := ["hep-th"], published := 0,
    num_authors := 1 }

/-- An environment where the target identifier does not resolve. -/
def emptyEnv : Env :=
  { fetch_paper := none, topic_keywords := [], target_references := none,
    ref_citations := fun _ => none, topic_refs := [], method_refs := [],
    citing_hits := fun _ => [], topic_hits := [], author_info := fun _ => none,
    has_conflict := fun _ => false, small_collab_counts := fun _ => [],
    now := 0, current_year := 2026 }

/-- A resolvable target with no candidate pool at all. -/
def quietEnv : Env := { emptyEnv with fetch_paper := some witnessTarget }

def defaultParams : Params :=
  { num_candidates := 5, months_start := 2, months_end := 12,
    topic_weight := 1, citation_weight := 1, niche_only := false }

def zeroRand : Rand := ⟨[], [], []⟩

/-- Eleven linked references of the target; only `R0` resolves (with
citation count 0). -/
def elevenRefs : List (Option String) :=
  [some "R0", some "R1", some "R2", some "R3", some "R4", some "R5",
   some "R6", some "R7", some "R8", some "R9", some "R10"]

/-- One topic-search hit authored by an eligible candidate. -/
def zedHit : Hit :=
  { arxivId := some "2405.00001", title := "P", authorsFull := ["Yan Zed"],
    earliestDate := some (-120), refIds := [], abstract := "", categories := [] }

/-- Fixed upstream responses: a resolvable target, one topic-search hit
by an eligible author, and eleven linked references of which only `R0`
resolves.  The mainstream-index sampling is the only randomness that
matters here. -/
def zedEnv : Env :=
  { fetch_paper := some witnessTarget
    topic_keywords := ["kw"]
    target_references := some elevenRefs
    ref_citations := fun s => if s = "R0" then some 0 else none
    topic_refs := []
    method_refs := []
    citing_hits := fun _ => []
    topic_hits := [zedHit]
    author_info := fun n =>
      if n = "Yan Zed" then some ⟨"Yan Zed", some "Postdoc", none⟩ else none
    has_conflict := fun _ => false
    small_collab_counts := fun _ => []
    now := 0
    current_year := 2026 }

def zedParams : Params :=
  { num_candidates := 1, months_start := 2, months_end := 12,
    topic_weight := 1, citation_weight := 1, niche_only := false }

/-- A draw sampling references `R1`-`R10` (none resolve: early 0.5). -/
def randNoData : Rand := ⟨[1, 2, 3, 4, 5, 6, 7, 8, 9, 10], [], []⟩

/-- A draw sampling references `R0`-`R9` (`R0` resolves with count 0). -/
def randWithR0 : Rand := ⟨[0, 1, 2, 3, 4, 5, 6, 7, 8, 9], [], []⟩

/-- A 16-author co-citation record for identifier `X1`. -/
def bigRec : PaperRec :=
  { arxiv_id := "X1", title := "t1", authors := ["Al Pha"], num_authors := 16,
    shared_refs := 3, topic_match := false, earliest_date := some 0,
    abstracts := "", categories := [] }

/-- A 1-author topic record for the same identifier `X1`. -/
def smallRec : PaperRec :=
  { arxiv_id := "X1", title := "t2", authors := ["Be Ta"], num_authors := 1,
    shared_refs := 0, topic_match := true, earliest_date := some 0,
    abstracts := "", categories := [] }

/-- Another 16-author record for `X1`. -/
def bigRec2 : PaperRec := { smallRec with num_authors := 16 }

deriving instance DecidableEq for Except

/-!
# Theorems

Every claim of the specification is settled below; helper lemmas come
first.
-/

/-! ## C2: unresolvable target -/

/-- C2: when the Paper Source Adapter cannot resolve the target
identifier, `find_referees` raises the fatal paper-not-found error and
returns no candidates — it aborts before any other step runs. -/
theorem find_referees_paper_not_found (log10 : ℚ → ℚ) (env : Env) (p : Params)
    (r : Rand) (h : env.fetch_paper = none) :
    find_referees log10 env p r = .error .paperNotFound := by
  unfold find_referees
  rw [h]

/-- C2 witness: the error on a concrete unresolvable environment. -/
theorem find_referees_paper_not_found_witness :
    find_referees log10zero emptyEnv defaultParams zeroRand = .error .paperNotFound :=
  find_referees_paper_not_found log10zero emptyEnv defaultParams zeroRand rfl

/-! ## C4: career-stage derivation -/

/-- C4: with no override and a known (truthy) first-paper year, the
career stage equals the spec's derivation rule on
`years = current_year - first_paper_year` (so `current_year - 5` gives
"Postdoc" and `current_year - 6` gives "Junior Faculty"); an unknown
first-paper year gives an unknown stage, and a non-empty override stage
always takes precedence. -/
theorem career_stage_correct :
    (∀ y cy : Int, y ≠ 0 →
      career_stage none (some y) cy = some (stage_of_years (cy - y)))
    ∧ (∀ cy : Int, cy ≠ 5 → career_stage none (some (cy - 5)) cy = some "Postdoc")
    ∧ (∀ cy : Int, cy ≠ 6 → career_stage none (some (cy - 6)) cy = some "Junior Faculty")
    ∧ (∀ cy : Int, career_stage none none cy = none)
    ∧ (∀ (s : String) (fpy : Option Int) (cy : Int), s ≠ "" →
        career_stage (some s) fpy cy = some s) := by
  have main : ∀ y cy : Int, y ≠ 0 →
      career_stage none (some y) cy = some (stage_of_years (cy - y)) := by
    intro y cy hy
    simp only [career_stage, career_stage_from_years, career_years, if_neg hy,
      stage_of_years]
    generalize cy - y = t
    split_ifs <;> first | rfl | omega
  refine ⟨main, ?_, ?_, fun _ => rfl, ?_⟩
  · intro cy h
    rw [main (cy - 5) cy (by omega)]
    have h5 : cy - (cy - 5) = 5 := by ring
    rw [h5]
    decide
  · intro cy h
    rw [main (cy - 6) cy (by omega)]
    have h6 : cy - (cy - 6) = 6 := by ring
    rw [h6]
    decide
  · intro s fpy cy hs
    simp only [career_stage, if_pos hs]

/-- C4 witness: both boundary instances at `current_year = 2026`. -/
theorem career_stage_correct_witness :
    career_stage none (some 2021) 2026 = some "Postdoc"
    ∧ career_stage none (some 2020) 2026 = some "Junior Faculty" :=
  ⟨career_stage_correct.2.1 2026 (by decide), career_stage_correct.2.2.1 2026 (by decide)⟩

/-! ## C9: symmetry of name matching -/

/-- C9: `names_match` is symmetric (including the crash behaviour,
modelled by `none`): every branch compares symmetric data. -/
theorem names_match_symm (a b : String) (_ha : a ≠ "") (_hb : b ≠ "") :
    names_match a b = names_match b a := by
  unfold names_match
  by_cases h : normalize_author_name_list a.data = normalize_author_name_list b.data
  · rw [if_pos h, if_pos h.symm]
  · rw [if_neg h, if_neg fun e => h e.symm]
    rcases e1 : (splitWsList (normalize_author_name_list a.data)).getLast? with _ | t1 <;>
      rcases e2 : (splitWsList (normalize_author_name_list b.data)).getLast? with _ | t2 <;>
      simp only [e1, e2] <;> try rfl
    by_cases ht : t1 = t2
    · subst ht
      rw [if_neg (by simp : ¬ t1 ≠ t1), if_neg (by simp : ¬ t1 ≠ t1)]
      rcases f1 : ((splitWsList (normalize_author_name_list a.data)).headD []).head? with _ | c1 <;>
        rcases f2 : ((splitWsList (normalize_author_name_list b.data)).headD []).head? with _ | c2 <;>
        simp only [f1, f2] <;> try rfl
      exact congrArg some (decide_eq_decide.mpr ⟨fun x => x.symm, fun x => x.symm⟩)
    · rw [if_pos ht, if_pos fun e => ht e.symm]

/-- C9 witness: symmetry at a concrete pair of names. -/
theorem names_match_symm_witness :
    names_match "Witten, Edward" "Edward Witten" = names_match "Edward Witten" "Witten, Edward" :=
  names_match_symm "Witten, Edward" "Edward Witten" (by decide) (by decide)

/-! ## C7: identifier normalization -/

/-- C7 counterexample: `normalize_arxiv_id` does not strip version
suffixes — the version is only removed later, when `fetch_paper`
rebuilds the id from the API response — so the claimed equality
`normalize("https://arxiv.org/abs/2401.12345v2") = "2401.12345"` fails;
and normalization is not idempotent on every string: stripping a
leading `arXiv:` can expose a URL prefix that only a second pass
removes. -/
theorem normalize_arxiv_id_claim_false :
    normalize_arxiv_id "https://arxiv.org/abs/2401.12345v2" ≠ "2401.12345"
    ∧ normalize_arxiv_id (normalize_arxiv_id "arXiv:https://arxiv.org/abs/2401.12345")
      ≠ normalize_arxiv_id "arXiv:https://arxiv.org/abs/2401.12345" := by
  constructor <;> decide

/-- C7 amended: normalization strips the URL prefix, every `.pdf`
occurrence and a case-insensitive `arXiv:` prefix, but keeps version
suffixes (`normalize("https://arxiv.org/abs/2401.12345v2") =
"2401.12345v2"`, `normalize("2401.12345") = "2401.12345"`), and it is
idempotent on every string that is already a fixed point of the four
strip passes — in particular on the two example identifiers. -/
theorem normalize_arxiv_id_amended :
    (∀ s : String, trimChars s.data = s.data → stripUrl s.data = s.data →
      removePdf s.data = s.data → dropArxivTag s.data = s.data →
      normalize_arxiv_id s = s)
    ∧ normalize_arxiv_id "https://arxiv.org/abs/2401.12345v2" = "2401.12345v2"
    ∧ normalize_arxiv_id "2401.12345" = "2401.12345"
    ∧ normalize_arxiv_id (normalize_arxiv_id "https://arxiv.org/abs/2401.12345v2")
      = normalize_arxiv_id "https://arxiv.org/abs/2401.12345v2" := by
  refine ⟨?_, by decide, by decide, by decide⟩
  intro s h1 h2 h3 h4
  unfold normalize_arxiv_id
  rw [h1, h2, h3, h4]

/-- C7 witness: idempotence applied at a concrete fixed point. -/
theorem normalize_arxiv_id_amended_witness :
    normalize_arxiv_id "2401.12345v2" = "2401.12345v2" :=
  normalize_arxiv_id_amended.1 "2401.12345v2" (by decide) (by decide) (by decide) (by decide)

/-! ## C5: bounds of the generic relevance scorer -/

theorem paper_score_nonneg (ks cs : List String) (p : Paper) :
    0 ≤ paper_score ks cs p := by
  simp only [paper_score]
  positivity

theorem paper_score_le_one (ks cs : List String) (p : Paper) :
    paper_score ks cs p ≤ 1 := by
  simp only [paper_score]
  have hk : ((ks.countP fun kw =>
        containsSub kw.data (toLowerList (p.title.data ++ ' ' :: p.abstract.data)) : ℕ) : ℚ)
      / ((max ks.length 1 : ℕ) : ℚ) ≤ 1 := by
    apply div_le_one_of_le
    · exact_mod_cast (List.countP_le_length _).trans (le_max_left _ _)
    · positivity
  have hc : (((cs.filter fun c => c ∈ p.categories).length : ℕ) : ℚ)
      / ((max cs.length 1 : ℕ) : ℚ) ≤ 1 := by
    apply div_le_one_of_le
    · exact_mod_cast (List.length_filter_le _ _).trans (le_max_left _ _)
    · positivity
  have h1 : (0:ℚ) ≤ 7/10 := by norm_num
  have h2 : (0:ℚ) ≤ 3/10 := by norm_num
  nlinarith [mul_le_mul_of_nonneg_left hk h1, mul_le_mul_of_nonneg_left hc h2]

/-- C5: the generic relevance scorer always returns a value in
[0.0, 1.0], and returns exactly 0.0 on an empty candidate-paper list. -/
theorem calculate_relevance_score_bounds (papers : List Paper)
    (kws cats : List String) :
    0 ≤ calculate_relevance_score papers kws cats
    ∧ calculate_relevance_score papers kws cats ≤ 1
    ∧ (papers = [] → calculate_relevance_score papers kws cats = 0) := by
  by_cases hp : papers = []
  · subst hp
    simp [calculate_relevance_score]
  · have hmapne : papers.map (paper_score
        ((kws.map (fun s => String.mk (toLowerList s.data))).dedup) cats.dedup) ≠ [] := by
      simpa using hp
    simp only [calculate_relevance_score, if_neg hp, if_neg hmapne]
    set ks := (kws.map (fun s => String.mk (toLowerList s.data))).dedup with hks
    set scores := papers.map (paper_score ks cats.dedup) with hscores
    set top := (scores.insertionSort (fun a b => b ≤ a)).take 3 with htop
    have hmem : ∀ x ∈ top, 0 ≤ x ∧ x ≤ 1 := by
      intro x hx
      have hx1 : x ∈ scores.insertionSort (fun a b => b ≤ a) := List.mem_of_mem_take hx
      have hx2 : x ∈ scores :=
        (List.perm_insertionSort (fun a b => b ≤ a) scores).mem_iff.mp hx1
      obtain ⟨q, _, rfl⟩ := List.mem_map.mp hx2
      exact ⟨paper_score_nonneg _ _ _, paper_score_le_one _ _ _⟩
    have hlen : 0 < top.length := by
      have h1 : (scores.insertionSort (fun a b => b ≤ a)).length = scores.length :=
        (List.perm_insertionSort (fun a b => b ≤ a) scores).length_eq
      have h2 : scores ≠ [] := by rw [hscores]; exact hmapne
      have h3 : 0 < scores.length := List.length_pos.mpr h2
      rw [htop, List.length_take, h1]
      omega
    have hsum0 : 0 ≤ top.sum := List.sum_nonneg fun x hx => (hmem x hx).1
    have hsum1 : top.sum ≤ (top.length : ℚ) := by
      have := List.sum_le_card_nsmul top 1 fun x hx => (hmem x hx).2
      simpa [nsmul_eq_mul] using this
    have hlenQ : (0:ℚ) < (top.length : ℚ) := by exact_mod_cast hlen
    have havg0 : 0 ≤ top.sum / (top.length : ℚ) := div_nonneg hsum0 hlenQ.le
    have havg1 : top.sum / (top.length : ℚ) ≤ 1 := by
      rw [div_le_one hlenQ]
      simpa using hsum1
    have hqb0 : 0 ≤ min ((papers.length : ℚ) * (1/20)) (1/5) :=
      le_min (by positivity) (by norm_num)
    exact ⟨le_min (by linarith) (by norm_num), min_le_right _ _, fun c => absurd c hp⟩

/-- C5 witness: the vacuous case evaluated at a concrete empty list. -/
theorem calculate_relevance_score_bounds_witness :
    calculate_relevance_score [] ["kw"] ["hep-th"] = 0 :=
  (calculate_relevance_score_bounds [] ["kw"] ["hep-th"]).2.2 rfl

/-! ## C8: the mainstream-index formulas -/

theorem avg_citations_nonneg (l : List Nat) : 0 ≤ avg_citations l := by
  unfold avg_citations
  positivity

/-- C8 counterexample: with citation data present but an average
citation count of 0, the code sets `citation_score = 0.1`, not 0 (the
`else 0.1` branch of `calculate_mainstream_index`). -/
theorem citation_score_zero_claim_false :
    avg_citations [0] = 0
    ∧ citation_score (avg_citations [0]) = 1/10
    ∧ citation_score (avg_citations [0]) ≠ 0 := by
  have h : avg_citations [0] = 0 := by unfold avg_citations; norm_num
  refine ⟨h, ?_, ?_⟩ <;> rw [h] <;> unfold citation_score <;> norm_num

/-- C8 amended: `citation_score = min(log10(avg+1)/3, 1.0)` whenever the
average citation count is positive, but it is `0.1` (not 0) when the
average is zero; the combined index is
`round(0.7*citation_score + 0.3*ref_count_score, 2)` and always lies in
[0, 1]. -/
theorem mainstream_index_form (counts : List Nat) (nrefs : Nat) :
    (0 < avg_citations counts →
      citation_score (avg_citations counts)
        = min (Real.logb 10 ((avg_citations counts : ℝ) + 1) / 3) 1)
    ∧ (avg_citations counts = 0 → citation_score (avg_citations counts) = 1/10)
    ∧ mainstream_index counts nrefs
        = round2R ((7/10) * citation_score (avg_citations counts)
            + (3/10) * ((ref_count_score nrefs : ℚ) : ℝ))
    ∧ 0 ≤ mainstream_index counts nrefs
    ∧ mainstream_index counts nrefs ≤ 1 := by
  have havg : (0:ℚ) ≤ avg_citations counts := avg_citations_nonneg counts
  have hcs0 : (0:ℝ) ≤ citation_score (avg_citations counts) := by
    unfold citation_score
    split_ifs with h
    · refine le_min (div_nonneg ?_ (by norm_num)) (by norm_num)
      apply Real.logb_nonneg (by norm_num)
      have h0 : (0:ℝ) ≤ ((avg_citations counts : ℚ) : ℝ) := by exact_mod_cast havg
      linarith
    · norm_num
  have hcs1 : citation_score (avg_citations counts) ≤ 1 := by
    unfold citation_score
    split_ifs
    · exact min_le_right _ _
    · norm_num
  have hr0 : (0:ℚ) ≤ ref_count_score nrefs := le_min (by positivity) (by norm_num)
  have hr1 : ref_count_score nrefs ≤ 9/10 := min_le_right _ _
  have hr0R : (0:ℝ) ≤ ((ref_count_score nrefs : ℚ) : ℝ) := by exact_mod_cast hr0
  have hr1R : ((ref_count_score nrefs : ℚ) : ℝ) ≤ 9/10 := by
    rw [show (9/10 : ℝ) = ((9/10 : ℚ) : ℝ) from by norm_num]
    exact_mod_cast hr1
  have hm1 := mul_le_mul_of_nonneg_left hcs1 (by norm_num : (0:ℝ) ≤ 7/10)
  have hm2 := mul_le_mul_of_nonneg_left hr1R (by norm_num : (0:ℝ) ≤ 3/10)
  have hx0 : (0:ℝ) ≤ (7/10) * citation_score (avg_citations counts)
      + (3/10) * ((ref_count_score nrefs : ℚ) : ℝ) := by positivity
  have hx97 : (7/10) * citation_score (avg_citations counts)
      + (3/10) * ((ref_count_score nrefs : ℚ) : ℝ) ≤ 97/100 := by linarith
  refine ⟨fun h => by unfold citation_score; rw [if_pos h],
    fun h => by rw [h]; unfold citation_score; norm_num, rfl, ?_, ?_⟩
  · unfold mainstream_index round2R
    apply div_nonneg _ (by norm_num)
    have hz : (0:ℤ) ≤ round (100 * ((7/10) * citation_score (avg_citations counts)
        + (3/10) * ((ref_count_score nrefs : ℚ) : ℝ))) := by
      rw [round_eq]
      apply Int.floor_nonneg.mpr
      linarith
    exact_mod_cast hz
  · unfold mainstream_index round2R
    rw [div_le_one (by norm_num : (0:ℝ) < 100)]
    have hz : round (100 * ((7/10) * citation_score (avg_citations counts)
        + (3/10) * ((ref_count_score nrefs : ℚ) : ℝ))) ≤ 98 := by
      rw [round_eq]
      have h98 : 100 * ((7/10) * citation_score (avg_citations counts)
          + (3/10) * ((ref_count_score nrefs : ℚ) : ℝ)) + 1/2 ≤ (98:ℝ) := by linarith
      calc ⌊100 * ((7/10) * citation_score (avg_citations counts)
            + (3/10) * ((ref_count_score nrefs : ℚ) : ℝ)) + 1/2⌋
          ≤ ⌊(98:ℝ)⌋ := Int.floor_le_floor h98
        _ = 98 := by norm_num
    have hzR : ((round (100 * ((7/10) * citation_score (avg_citations counts)
        + (3/10) * ((ref_count_score nrefs : ℚ) : ℝ))) : ℤ) : ℝ) ≤ 98 := by
      exact_mod_cast hz
    linarith

/-- C8 witness: the zero-average branch applied at concrete data. -/
theorem mainstream_index_form_witness :
    citation_score (avg_citations [0]) = 1/10 :=
  (mainstream_index_form [0] 11).2.1 (by norm_num [avg_citations])

/-! ## C1: shape of a successful result -/

/-- C1: every successful invocation returns at most `num_candidates`
candidates, sorted descending by final relevance score — precisely the
first `num_candidates` of the surviving candidates after the final
sort. -/
theorem find_referees_sorted_topN (log10 : ℚ → ℚ) (env : Env) (p : Params)
    (r : Rand) (out : List RefereeCandidate)
    (h : find_referees log10 env p r = .ok out) :
    out.length ≤ p.num_candidates
    ∧ out.Pairwise (fun a b => b.relevance_score ≤ a.relevance_score)
    ∧ ∃ cs, survivors log10 env p r = some cs
        ∧ out = (sort_candidates cs).take p.num_candidates := by
  unfold find_referees at h
  cases hf : env.fetch_paper with
  | none => rw [hf] at h; exact absurd h (by simp)
  | some paper =>
    rw [hf] at h
    cases hs : survivors log10 env p r with
    | none => rw [hs] at h; exact absurd h (by simp)
    | some cs =>
      rw [hs] at h
      simp only [Except.ok.injEq] at h
      subst h
      refine ⟨List.length_take_le _ _, ?_, cs, rfl, rfl⟩
      have hsorted : (sort_candidates cs).Pairwise
          (fun a b => b.relevance_score ≤ a.relevance_score) := by
        unfold sort_candidates
        haveI ht : IsTotal RefereeCandidate
            (fun a b => b.relevance_score ≤ a.relevance_score) :=
          ⟨fun a b => le_total _ _⟩
        haveI htr : IsTrans RefereeCandidate
            (fun a b => b.relevance_score ≤ a.relevance_score) :=
          ⟨fun a b c h1 h2 => le_trans h2 h1⟩
        exact List.sorted_insertionSort _ _
      exact hsorted.sublist (List.take_sublist _ _)

/-- C1 witness: the theorem applied at a concrete successful
invocation (empty candidate pool, empty result). -/
theorem find_referees_sorted_topN_witness :
    ([] : List RefereeCandidate).length ≤ defaultParams.num_candidates
    ∧ ([] : List RefereeCandidate).Pairwise
        (fun a b => b.relevance_score ≤ a.relevance_score)
    ∧ ∃ cs, survivors log10zero quietEnv defaultParams zeroRand = some cs
        ∧ ([] : List RefereeCandidate)
            = (sort_candidates cs).take defaultParams.num_candidates :=
  find_referees_sorted_topN log10zero quietEnv defaultParams zeroRand []
    (by with_unfolding_all decide)

/-! ## C3: determinism -/

/-- C3 counterexample: with all upstream responses fixed (`zedEnv`) and
identical parameters, two invocations that differ only in the unseeded
`random.sample` draw of `calculate_mainstream_index` return different
output (the returned candidate carries mainstream index 0.5 in one run
and 0.1 in the other). -/
theorem find_referees_random_dependent :
    find_referees log10zero zedEnv zedParams randNoData
      ≠ find_referees log10zero zedEnv zedParams randWithR0 := by
  have e1 : resultMainstream (find_referees log10zero zedEnv zedParams randNoData)
      = 1/2 := by with_unfolding_all decide
  have e2 : resultMainstream (find_referees log10zero zedEnv zedParams randWithR0)
      = 1/10 := by with_unfolding_all decide
  intro h
  rw [h, e2] at e1
  norm_num at e1

/-- C3 amended: the pipeline is deterministic in the upstream responses,
the parameters and the random draws — two invocations agree whenever the
`random.sample` draws also agree (the draws themselves are not fixed by
the parameters, as the counterexample shows). -/
theorem find_referees_deterministic (log10 : ℚ → ℚ) (env : Env) (p : Params)
    (r1 r2 : Rand) (h : r1 = r2) :
    find_referees log10 env p r1 = find_referees log10 env p r2 := by
  rw [h]

/-- C3 witness: determinism at a concrete invocation. -/
theorem find_referees_deterministic_witness :
    find_referees log10zero zedEnv zedParams randNoData
      = find_referees log10zero zedEnv zedParams randNoData :=
  find_referees_deterministic log10zero zedEnv zedParams randNoData randNoData rfl

/-! ## C6: deduplication of the candidate pool -/

theorem admittedRecs_sub : ∀ (recs : List PaperRec) (seen : List String),
    ∀ r ∈ admittedRecs recs seen,
      r ∈ recs ∧ r.num_authors ≤ 15 ∧ r.arxiv_id ∉ seen := by
  intro recs
  induction recs with
  | nil => intro seen r hr; cases hr
  | cons q rest ih =>
    intro seen r hr
    unfold admittedRecs at hr
    by_cases h1 : 15 < q.num_authors
    · rw [if_pos h1] at hr
      obtain ⟨hm, hn, hs⟩ := ih seen r hr
      exact ⟨List.mem_cons_of_mem _ hm, hn, hs⟩
    · rw [if_neg h1] at hr
      by_cases h2 : q.arxiv_id ∈ seen
      · rw [if_pos h2] at hr
        obtain ⟨hm, hn, hs⟩ := ih seen r hr
        exact ⟨List.mem_cons_of_mem _ hm, hn, hs⟩
      · rw [if_neg h2] at hr
        rcases List.mem_cons.mp hr with rfl | hr'
        · exact ⟨List.mem_cons_self _ _, by omega, h2⟩
        · obtain ⟨hm, hn, hs⟩ := ih _ r hr'
          exact ⟨List.mem_cons_of_mem _ hm, hn,
            fun c => hs (List.mem_cons_of_mem _ c)⟩

theorem admittedRecs_ids_nodup : ∀ (recs : List PaperRec) (seen : List String),
    ((admittedRecs recs seen).map (fun r => r.arxiv_id)).Nodup := by
  intro recs
  induction recs with
  | nil => intro seen; simp [admittedRecs]
  | cons q rest ih =>
    intro seen
    unfold admittedRecs
    by_cases h1 : 15 < q.num_authors
    · rw [if_pos h1]; exact ih seen
    · rw [if_neg h1]
      by_cases h2 : q.arxiv_id ∈ seen
      · rw [if_pos h2]; exact ih seen
      · rw [if_neg h2]
        rw [List.map_cons, List.nodup_cons]
        refine ⟨?_, ih _⟩
        intro hc
        obtain ⟨r, hr, hid⟩ := List.mem_map.mp hc
        have := (admittedRecs_sub rest _ r hr).2.2
        exact this (hid ▸ List.mem_cons_self _ _)

theorem admittedRecs_first : ∀ (recs : List PaperRec) (seen : List String),
    ∀ r ∈ admittedRecs recs seen,
      (recs.filter (fun q => decide (q.num_authors ≤ 15)
        && decide (q.arxiv_id = r.arxiv_id))).head? = some r := by
  intro recs
  induction recs with
  | nil => intro seen r hr; cases hr
  | cons q rest ih =>
    intro seen r hr
    unfold admittedRecs at hr
    by_cases h1 : 15 < q.num_authors
    · rw [if_pos h1] at hr
      rw [List.filter_cons_of_neg (by simp; omega)]
      exact ih seen r hr
    · rw [if_neg h1] at hr
      by_cases h2 : q.arxiv_id ∈ seen
      · rw [if_pos h2] at hr
        have hid : q.arxiv_id ≠ r.arxiv_id := by
          intro e
          exact (admittedRecs_sub rest seen r hr).2.2 (e ▸ h2)
        rw [List.filter_cons_of_neg (by simp [hid])]
        exact ih seen r hr
      · rw [if_neg h2] at hr
        rcases List.mem_cons.mp hr with rfl | hr'
        · rw [List.filter_cons_of_pos (by simp; omega)]
          rfl
        · have hs := (admittedRecs_sub rest _ r hr').2.2
          have hid : q.arxiv_id ≠ r.arxiv_id := by
            intro e
            exact hs (e ▸ List.mem_cons_self _ _)
          rw [List.filter_cons_of_neg (by simp [hid])]
          exact ih _ r hr'

theorem admittedRecs_exists : ∀ (recs : List PaperRec) (seen : List String),
    ∀ q ∈ recs, q.num_authors ≤ 15 → q.arxiv_id ∉ seen →
      ∃ r ∈ admittedRecs recs seen, r.arxiv_id = q.arxiv_id := by
  intro recs
  induction recs with
  | nil => intro seen q hq; cases hq
  | cons a rest ih =>
    intro seen q hq hn hs
    unfold admittedRecs
    by_cases h1 : 15 < a.num_authors
    · rw [if_pos h1]
      rcases List.mem_cons.mp hq with rfl | hq'
      · omega
      · exact ih seen q hq' hn hs
    · rw [if_neg h1]
      by_cases h2 : a.arxiv_id ∈ seen
      · rw [if_pos h2]
        rcases List.mem_cons.mp hq with rfl | hq'
        · exact absurd h2 hs
        · exact ih seen q hq' hn hs
      · rw [if_neg h2]
        by_cases hid : q.arxiv_id = a.arxiv_id
        · exact ⟨a, List.mem_cons_self _ _, hid.symm⟩
        · rcases List.mem_cons.mp hq with rfl | hq'
          · exact absurd rfl hid
          · obtain ⟨r, hr, he⟩ := ih (a.arxiv_id :: seen) q hq' hn
              (by simp [hs, hid])
            exact ⟨r, List.mem_cons_of_mem _ hr, he⟩

theorem collectAuthors_eq_accum (now : Int) (targets : List String) :
    ∀ (recs : List PaperRec) (seen : List String) (m : AuthorMap),
      collectAuthors now targets recs seen m
        = accumRecords now targets (admittedRecs recs seen) m := by
  intro recs
  induction recs with
  | nil => intro seen m; rfl
  | cons r rest ih =>
    intro seen m
    unfold collectAuthors admittedRecs
    by_cases h1 : 15 < r.num_authors
    · rw [if_pos h1, if_pos h1]; exact ih seen m
    · rw [if_neg h1, if_neg h1]
      by_cases h2 : r.arxiv_id ∈ seen
      · rw [if_pos h2, if_pos h2]; exact ih seen m
      · rw [if_neg h2, if_neg h2]
        unfold accumRecords
        cases accumAuthors now targets r r.authors m with
        | none => rfl
        | some m2 => exact ih _ m2

theorem lookup_bumpAuthor (name q : String) (r : PaperRec) (rel : Paper) :
    ∀ m : AuthorMap,
      lookupName q (bumpAuthor name r rel m)
        = if q = name then
            some (accum_step r rel ((lookupName name m).getD defaultAuthorData))
          else lookupName q m := by
  intro m
  induction m with
  | nil =>
    by_cases h : q = name
    · subst h; simp [bumpAuthor, lookupName]
    · have h' : ¬ name = q := fun e => h e.symm
      simp [bumpAuthor, lookupName, h, h']
  | cons hd tl ih =>
    obtain ⟨k, d⟩ := hd
    by_cases hk : k = name
    · subst hk
      by_cases hq : k = q
      · subst hq; simp [bumpAuthor, lookupName]
      · have hq' : ¬ q = k := fun e => hq e.symm
        simp [bumpAuthor, lookupName, hq, hq']
    · by_cases hq : k = q
      · subst hq
        simp [bumpAuthor, lookupName, hk]
      · simp [bumpAuthor, lookupName, hk, hq, ih]

theorem accumAuthors_lookup_mem (now : Int) (targets : List String) (r : PaperRec) :
    ∀ (names : List String) (m m' : AuthorMap),
      accumAuthors now targets r names m = some m' →
      ∀ n, lookupName n m' = lookupName n m ∨ n ∈ names := by
  intro names
  induction names with
  | nil =>
    intro m m' h n
    unfold accumAuthors at h
    simp only [Option.some.injEq] at h
    exact Or.inl (h ▸ rfl)
  | cons a rest ih =>
    intro m m' h n
    unfold accumAuthors at h
    cases hip : is_paper_author a targets with
    | none => rw [hip] at h; cases h
    | some b =>
      rw [hip] at h
      cases b with
      | true =>
        rcases ih m m' h n with h1 | h2
        · exact Or.inl h1
        · exact Or.inr (List.mem_cons_of_mem _ h2)
      | false =>
        rcases ih _ m' h n with h1 | h2
        · by_cases hn : n = a
          · exact Or.inr (hn ▸ List.mem_cons_self _ _)
          · rw [h1, lookup_bumpAuthor, if_neg hn]
            exact Or.inl rfl
        · exact Or.inr (List.mem_cons_of_mem _ h2)

theorem accumAuthors_lookup (now : Int) (targets : List String) (r : PaperRec) :
    ∀ (names : List String) (m m' : AuthorMap),
      accumAuthors now targets r names m = some m' → names.Nodup →
      ∀ n, lookupName n m' = lookupName n m
        ∨ (n ∈ names ∧ lookupName n m'
            = some (accum_step r (paper_of_rec now r)
                ((lookupName n m).getD defaultAuthorData))) := by
  intro names
  induction names with
  | nil =>
    intro m m' h _ n
    unfold accumAuthors at h
    simp only [Option.some.injEq] at h
    exact Or.inl (h ▸ rfl)
  | cons a rest ih =>
    intro m m' h hnd n
    have hand := List.nodup_cons.mp hnd
    unfold accumAuthors at h
    cases hip : is_paper_author a targets with
    | none => rw [hip] at h; cases h
    | some b =>
      rw [hip] at h
      cases b with
      | true =>
        rcases ih m m' h hand.2 n with h1 | ⟨h2, h3⟩
        · exact Or.inl h1
        · exact Or.inr ⟨List.mem_cons_of_mem _ h2, h3⟩
      | false =>
        rcases ih _ m' h hand.2 n with h1 | ⟨h2, h3⟩
        · by_cases hn : n = a
          · subst hn
            refine Or.inr ⟨List.mem_cons_self _ _, ?_⟩
            rw [h1, lookup_bumpAuthor, if_pos rfl]
          · rw [h1, lookup_bumpAuthor, if_neg hn]
            exact Or.inl rfl
        · have hna : n ≠ a := fun e => hand.1 (e ▸ h2)
          refine Or.inr ⟨List.mem_cons_of_mem _ h2, ?_⟩
          rw [h3, lookup_bumpAuthor, if_neg hna]

theorem filter_id_le_one_of_nodup :
    ∀ (l : List PaperRec),
      ((l.map (fun r => r.arxiv_id)).Nodup) → ∀ id : String,
      (l.filter (fun r => decide (r.arxiv_id = id))).length ≤ 1 := by
  intro l
  induction l with
  | nil => intro _ id; simp
  | cons r rest ih =>
    intro hnd id
    rw [List.map_cons, List.nodup_cons] at hnd
    by_cases hid : r.arxiv_id = id
    · rw [List.filter_cons_of_pos (by simp [hid])]
      have hrest : rest.filter (fun q => decide (q.arxiv_id = id)) = [] := by
        rw [List.filter_eq_nil]
        intro q hq hc
        simp only [decide_eq_true_eq] at hc
        exact hnd.1 (List.mem_map.mpr ⟨q, hq, by rw [hc, hid]⟩)
      simp [hrest]
    · rw [List.filter_cons_of_neg (by simp [hid])]
      exact ih hnd.2 id

theorem accumRecords_papers (now : Int) (targets : List String) :
    ∀ (recs : List PaperRec) (m m' : AuthorMap),
      accumRecords now targets recs m = some m' →
      ((recs.map (fun r => r.arxiv_id)).Nodup) →
      (∀ r ∈ recs, r.authors.Nodup) →
      (∀ n d, lookupName n m = some d →
        (∀ id, (d.papers.filter (fun p => decide (p.arxiv_id = id))).length ≤ 1)
        ∧ (∀ p ∈ d.papers, p.arxiv_id ∉ recs.map (fun r => r.arxiv_id))) →
      ∀ n d, lookupName n m' = some d →
        ∀ id, (d.papers.filter (fun p => decide (p.arxiv_id = id))).length ≤ 1 := by
  intro recs
  induction recs with
  | nil =>
    intro m m' h _ _ hm n d hd id
    unfold accumRecords at h
    simp only [Option.some.injEq] at h
    subst h
    exact (hm n d hd).1 id
  | cons r rest ih =>
    intro m m' h hids hauth hm n d hd id
    unfold accumRecords at h
    cases ha : accumAuthors now targets r r.authors m with
    | none => rw [ha] at h; cases h
    | some m2 =>
      rw [ha] at h
      rw [List.map_cons, List.nodup_cons] at hids
      refine ih m2 m' h hids.2 (fun x hx => hauth x (List.mem_cons_of_mem _ hx))
        ?_ n d hd id
      intro n2 d2 hd2
      rcases accumAuthors_lookup now targets r r.authors m m2 ha
          (hauth r (List.mem_cons_self _ _)) n2 with h1 | ⟨_, h3⟩
      · rw [h1] at hd2
        obtain ⟨hcnt, havoid⟩ := hm n2 d2 hd2
        exact ⟨hcnt, fun p hp c =>
          havoid p hp (List.mem_cons_of_mem _ c)⟩
      · rw [h3] at hd2
        simp only [Option.some.injEq] at hd2
        subst hd2
        cases hl : lookupName n2 m with
        | none =>
          simp only [hl, Option.getD_none] at *
          constructor
          · intro id2
            simp [accum_step, defaultAuthorData, paper_of_rec, List.filter]
            split <;> simp
          · intro p hp
            simp only [accum_step, defaultAuthorData] at hp
            simp only [List.nil_append, List.mem_singleton] at hp
            subst hp
            intro hc
            exact hids.1 hc
        | some d0 =>
          obtain ⟨hcnt0, havoid0⟩ := hm n2 d0 hl
          simp only [hl, Option.getD_some]
          constructor
          · intro id2
            simp only [accum_step, List.filter_append]
            by_cases hid2 : id2 = r.arxiv_id
            · have hnil : d0.papers.filter
                  (fun p => decide (p.arxiv_id = id2)) = [] := by
                rw [List.filter_eq_nil]
                intro p hp hc
                simp only [decide_eq_true_eq] at hc
                exact havoid0 p hp (by
                  rw [List.map_cons]
                  exact hc ▸ hid2 ▸ List.mem_cons_self _ _)
              rw [hnil]
              simp [paper_of_rec, List.filter]
              split <;> simp
            · have hnil : ([paper_of_rec now r].filter
                  (fun p => decide (p.arxiv_id = id2))) = [] := by
                have hne : (paper_of_rec now r).arxiv_id ≠ id2 :=
                  fun c => hid2 (c.symm.trans rfl)
                simp [List.filter, hne]
              rw [hnil, List.append_nil]
              exact hcnt0 id2
          · intro p hp
            simp only [accum_step, List.mem_append, List.mem_singleton] at hp
            rcases hp with hp | hp
            · exact fun c => havoid0 p hp (List.mem_cons_of_mem _ c)
            · subst hp
              intro hc
              exact hids.1 hc

/-- C6 counterexample: for identifier `X1` occurring first in the
co-citation pool (as a 16-author record authored by "Al Pha") and then
in the topic pool (1 author, "Be Ta"), the first occurrence does not
win: "Al Pha" is never accumulated and "Be Ta" receives the paper —
the over-15-author skip happens before the identifier is marked seen.
And when every occurrence of `X1` has more than 15 authors, the paper
is counted zero times, not exactly once. -/
theorem pool_dedup_first_occurrence_claim_false :
    lookupName "Al Pha" ((collectAuthors 0 [] [bigRec, smallRec] [] []).getD []) = none
    ∧ lookupName "Be Ta" ((collectAuthors 0 [] [bigRec, smallRec] [] []).getD [])
        = some ⟨[paper_of_rec 0 smallRec], 0, 0, 1⟩
    ∧ collectAuthors 0 [] [bigRec, bigRec2] [] [] = some [] := by
  refine ⟨?_, ?_, ?_⟩ <;> with_unfolding_all decide

/-- C6 amended: step 4 accumulates exactly the admitted subsequence of
the merged pool — the record accumulated for an identifier is the
*first occurrence with at most 15 authors* (not necessarily the first
occurrence), there is at most one accumulated record per identifier
(so nothing is double-counted across the two pools), an identifier with
at least one admissible occurrence is accumulated exactly once, and
consequently every author's relevant-paper list contains at most one
paper per identifier. -/
theorem pool_dedup_amended (now : Int) (targets : List String)
    (recs : List PaperRec) (m : AuthorMap)
    (hc : collectAuthors now targets recs [] [] = some m)
    (hauth : ∀ r ∈ recs, r.authors.Nodup) :
    collectAuthors now targets recs [] []
      = accumRecords now targets (admittedRecs recs []) []
    ∧ (∀ id, ((admittedRecs recs []).filter
        (fun r => decide (r.arxiv_id = id))).length ≤ 1)
    ∧ (∀ r ∈ admittedRecs recs [],
        (recs.filter (fun q => decide (q.num_authors ≤ 15)
          && decide (q.arxiv_id = r.arxiv_id))).head? = some r)
    ∧ (∀ q ∈ recs, q.num_authors ≤ 15 →
        ∃ r ∈ admittedRecs recs [], r.arxiv_id = q.arxiv_id)
    ∧ (∀ n d, lookupName n m = some d →
        ∀ id, (d.papers.filter (fun p => decide (p.arxiv_id = id))).length ≤ 1) := by
  refine ⟨collectAuthors_eq_accum now targets recs [] [],
    fun id => filter_id_le_one_of_nodup _ (admittedRecs_ids_nodup recs []) id,
    fun r hr => admittedRecs_first recs [] r hr,
    fun q hq hn => admittedRecs_exists recs [] q hq hn (by simp),
    ?_⟩
  have hacc : accumRecords now targets (admittedRecs recs []) [] = some m := by
    rw [← collectAuthors_eq_accum]
    exact hc
  exact accumRecords_papers now targets (admittedRecs recs []) [] m hacc
    (admittedRecs_ids_nodup recs [])
    (fun r hr => hauth r (admittedRecs_sub recs [] r hr).1)
    (fun n d hd => by cases hd)

/-- C6 witness: the amended theorem applied to a concrete pool. -/
theorem pool_dedup_amended_witness :
    ((admittedRecs [smallRec] []).filter
      (fun r => decide (r.arxiv_id = "X1"))).length ≤ 1 :=
  (pool_dedup_amended 0 [] [smallRec]
      ((collectAuthors 0 [] [smallRec] [] []).getD [])
      (by with_unfolding_all decide) (by decide)).2.1 "X1"

/-! ## C10: only the first 10 listed authors are considered -/

theorem topicSearchGo_mem (ds de : Int) :
    ∀ (hits : List Hit) (seen : List String) (rec : PaperRec),
      rec ∈ topicSearchGo ds de hits seen →
      ∃ h ∈ hits, ∃ aid, rec = mkTopicRec h aid := by
  intro hits
  induction hits with
  | nil => intro seen rec hr; cases hr
  | cons h rest ih =>
    intro seen rec hr
    unfold topicSearchGo at hr
    cases ha : h.arxivId with
    | none =>
      simp only [ha] at hr
      obtain ⟨h2, hm, aid, he⟩ := ih seen rec hr
      exact ⟨h2, List.mem_cons_of_mem _ hm, aid, he⟩
    | some aid =>
      simp only [ha] at hr
      by_cases hs : aid ∈ seen
      · rw [if_pos hs] at hr
        obtain ⟨h2, hm, aid2, he⟩ := ih seen rec hr
        exact ⟨h2, List.mem_cons_of_mem _ hm, aid2, he⟩
      · rw [if_neg hs] at hr
        cases hd : h.earliestDate with
        | none =>
          simp only [hd] at hr
          obtain ⟨h2, hm, aid2, he⟩ := ih seen rec hr
          exact ⟨h2, List.mem_cons_of_mem _ hm, aid2, he⟩
        | some d =>
          simp only [hd] at hr
          by_cases hw : ds ≤ d ∧ d ≤ de
          · rw [if_pos hw] at hr
            rcases List.mem_cons.mp hr with rfl | hr'
            · exact ⟨h, List.mem_cons_self _ _, aid, rfl⟩
            · obtain ⟨h2, hm, aid2, he⟩ := ih _ rec hr'
              exact ⟨h2, List.mem_cons_of_mem _ hm, aid2, he⟩
          · rw [if_neg hw] at hr
            obtain ⟨h2, hm, aid2, he⟩ := ih seen rec hr
            exact ⟨h2, List.mem_cons_of_mem _ hm, aid2, he⟩

theorem get_papers_citing_refs_mem (citing_hits : List String → List Hit)
    (now : Int) (ref_ids : List String) (rs : List Nat)
    (months_start months_end : Nat) (rec : PaperRec)
    (h : rec ∈ get_papers_citing_refs citing_hits now ref_ids rs
      months_start months_end) :
    ∃ hit, (∃ s, hit ∈ citing_hits s) ∧ ∃ aid, rec = mkCitingRec ref_ids hit aid := by
  unfold get_papers_citing_refs at h
  by_cases he : ref_ids.isEmpty
  · rw [if_pos he] at h; cases h
  · rw [if_neg he] at h
    obtain ⟨hit, hmem, heq⟩ := List.mem_filterMap.mp h
    refine ⟨hit, ⟨_, hmem⟩, ?_⟩
    cases hd : hit.earliestDate with
    | none => simp only [hd] at heq; exact Option.noConfusion heq
    | some d =>
      simp only [hd] at heq
      by_cases hw : now - (months_end : Int) * 30 ≤ d
          ∧ d ≤ now - (months_start : Int) * 30
      · rw [if_pos hw] at heq
        cases ha : hit.arxivId with
        | none => simp only [ha] at heq; exact Option.noConfusion heq
        | some aid =>
          simp only [ha, Option.some.injEq] at heq
          exact ⟨aid, heq.symm⟩
      · rw [if_neg hw] at heq; cases heq

theorem collectAuthors_keys (now : Int) (targets : List String) :
    ∀ (recs : List PaperRec) (seen : List String) (m0 m : AuthorMap),
      collectAuthors now targets recs seen m0 = some m →
      ∀ n, (lookupName n m).isSome →
        (lookupName n m0).isSome ∨ ∃ r ∈ recs, n ∈ r.authors := by
  intro recs
  induction recs with
  | nil =>
    intro seen m0 m h n hs
    unfold collectAuthors at h
    simp only [Option.some.injEq] at h
    exact Or.inl (h ▸ hs)
  | cons r rest ih =>
    intro seen m0 m h n hs
    unfold collectAuthors at h
    by_cases h1 : 15 < r.num_authors
    · rw [if_pos h1] at h
      rcases ih seen m0 m h n hs with hl | ⟨r2, hm, hn⟩
      · exact Or.inl hl
      · exact Or.inr ⟨r2, List.mem_cons_of_mem _ hm, hn⟩
    · rw [if_neg h1] at h
      by_cases h2 : r.arxiv_id ∈ seen
      · rw [if_pos h2] at h
        rcases ih seen m0 m h n hs with hl | ⟨r2, hm, hn⟩
        · exact Or.inl hl
        · exact Or.inr ⟨r2, List.mem_cons_of_mem _ hm, hn⟩
      · rw [if_neg h2] at h
        cases ha : accumAuthors now targets r r.authors m0 with
        | none => rw [ha] at h; cases h
        | some m2 =>
          rw [ha] at h
          rcases ih _ m2 m h n hs with hl | ⟨r2, hm, hn⟩
          · rcases accumAuthors_lookup_mem now targets r r.authors m0 m2 ha n
                with he | hmem
            · exact Or.inl (he ▸ hl)
            · exact Or.inr ⟨r, List.mem_cons_self _ _, hmem⟩
          · exact Or.inr ⟨r2, List.mem_cons_of_mem _ hm, hn⟩

/-- C10: each candidate record keeps the full co-author count
(`num_authors`) but carries only the first 10 listed author names, for
both the co-citation and the topic-search pools; every name that enters
the per-author accumulator comes from those truncated lists, so a name
that appears only at positions 11-15 of the admitted papers (and in no
record's first 10) is never evaluated as a candidate. -/
theorem author_pool_truncation :
    (∀ (ref_ids : List String) (h : Hit) (aid : String),
        (mkCitingRec ref_ids h aid).authors = h.authorsFull.take 10
        ∧ (mkCitingRec ref_ids h aid).num_authors = h.authorsFull.length)
    ∧ (∀ (h : Hit) (aid : String),
        (mkTopicRec h aid).authors = h.authorsFull.take 10
        ∧ (mkTopicRec h aid).num_authors = h.authorsFull.length)
    ∧ (∀ (env : Env) (p : Params) (r : Rand) (rec : PaperRec),
        rec ∈ pipeline_records env p r →
        ∃ hit, ((∃ s, hit ∈ env.citing_hits s) ∨ hit ∈ env.topic_hits)
          ∧ rec.authors = hit.authorsFull.take 10
          ∧ rec.num_authors = hit.authorsFull.length)
    ∧ (∀ (now : Int) (targets : List String) (recs : List PaperRec)
        (m : AuthorMap) (n : String),
        collectAuthors now targets recs [] [] = some m →
        (lookupName n m).isSome → ∃ r ∈ recs, n ∈ r.authors)
    ∧ (∀ (env : Env) (p : Params) (r : Rand) (now : Int)
        (targets : List String) (m : AuthorMap) (n : String),
        collectAuthors now targets (pipeline_records env p r) [] [] = some m →
        (∀ s hit, hit ∈ env.citing_hits s → n ∉ hit.authorsFull.take 10) →
        (∀ hit ∈ env.topic_hits, n ∉ hit.authorsFull.take 10) →
        lookupName n m = none) := by
  have hkeys : ∀ (now : Int) (targets : List String) (recs : List PaperRec)
      (m : AuthorMap) (n : String),
      collectAuthors now targets recs [] [] = some m →
      (lookupName n m).isSome → ∃ r ∈ recs, n ∈ r.authors := by
    intro now targets recs m n hc hs
    rcases collectAuthors_keys now targets recs [] [] m hc n hs with hl | he
    · simp [lookupName] at hl
    · exact he
  have hprov : ∀ (env : Env) (p : Params) (r : Rand) (rec : PaperRec),
      rec ∈ pipeline_records env p r →
      ∃ hit, ((∃ s, hit ∈ env.citing_hits s) ∨ hit ∈ env.topic_hits)
        ∧ rec.authors = hit.authorsFull.take 10
        ∧ rec.num_authors = hit.authorsFull.length := by
    intro env p r rec hr
    have mem_ite : ∀ {c : Prop} {inst : Decidable c} (l1 l2 : List PaperRec),
        rec ∈ (@ite _ c inst l1 l2) → rec ∈ l1 ∨ rec ∈ l2 := by
      intro c inst l1 l2 hm
      split at hm
      · exact Or.inl hm
      · exact Or.inr hm
    unfold pipeline_records at hr
    rcases List.mem_append.mp hr with hco | htp
    · rcases List.mem_append.mp hco with htc | hmc
      · rcases mem_ite _ _ htc with h1 | h2
        · cases h1
        · obtain ⟨pr, hpr, he⟩ := List.mem_map.mp h2
          obtain ⟨hit, hhit, aid, heq⟩ := get_papers_citing_refs_mem
            env.citing_hits env.now env.topic_refs r.citing_sample_topic
            p.months_start p.months_end pr hpr
          subst he
          exact ⟨hit, Or.inl hhit, by rw [heq]; exact ⟨rfl, rfl⟩⟩
      · rcases mem_ite _ _ hmc with h1 | h2
        · obtain ⟨hit, hhit, aid, heq⟩ := get_papers_citing_refs_mem
            env.citing_hits env.now env.method_refs r.citing_sample_method
            p.months_start p.months_end rec h1
          exact ⟨hit, Or.inl hhit, by rw [heq]; exact ⟨rfl, rfl⟩⟩
        · cases h2
    · rcases mem_ite _ _ htp with h1 | h2
      · cases h1
      · have htp2 := List.mem_of_mem_take h2
        obtain ⟨hit, hhit, aid, heq⟩ := topicSearchGo_mem _ _
          env.topic_hits [] rec htp2
        exact ⟨hit, Or.inr hhit, by rw [heq]; exact ⟨rfl, rfl⟩⟩
  refine ⟨fun _ _ _ => ⟨rfl, rfl⟩, fun _ _ => ⟨rfl, rfl⟩, hprov, hkeys, ?_⟩
  intro env p r now targets m n hc hciting htopic
  cases hl : lookupName n m with
  | none => rfl
  | some d =>
    obtain ⟨rec, hrec, hn⟩ := hkeys now targets _ m n hc (by simp [hl])
    obtain ⟨hit, hhit, hauth, _⟩ := hprov env p r rec hrec
    rw [hauth] at hn
    rcases hhit with ⟨s, hmem⟩ | hmem
    · exact absurd hn (hciting s hit hmem)
    · exact absurd hn (htopic hit hmem)

/-- C10 witness: the contrapositive applied at a concrete pool — a name
absent from every truncated author list is not in the accumulator. -/
theorem author_pool_truncation_witness :
    lookupName "No Body"
      ((collectAuthors 0 ["Tar Get"]
        (pipeline_records zedEnv zedParams randNoData) [] []).getD []) = none :=
  author_pool_truncation.2.2.2.2 zedEnv zedParams randNoData 0 ["Tar Get"]
    ((collectAuthors 0 ["Tar Get"]
      (pipeline_records zedEnv zedParams randNoData) [] []).getD []) "No Body"
    (by with_unfolding_all decide)
    (by intro s hit hmem; cases hmem)
    (by
      intro hit hmem
      rcases List.mem_singleton.mp hmem with rfl
      decide)

end RefereeFinder
